import Mathlib

/-
Shallow embedding of the quality-measures star-rating pipeline
(Scripts/starThresholdParsing.py, Scripts/calculateStarRating.py,
Scripts/monteCarloSimulation.py, Scripts/improvementPath.py,
Scripts/analyzeImprovmentStrategies.py).

Python floats are modelled as rationals, NaN sentinels as `Option`,
dictionaries and data-frame rows as association lists in insertion order,
and raised exceptions as `Except` (when the source catches them) or as an
outer `Option` returning `none` (when they would propagate uncaught).
-/

/-- A threshold band `(lower_bound, upper_bound, star_rating)` as stored in the
dictionary built by `create_measure_thresholds` in starThresholdParsing.py. -/
abbrev Band : Type := ℚ × ℚ × ℕ

/-- The measure-threshold dictionary: measure id mapped to its list of bands. -/
abbrev Thresholds : Type := List (String × List Band)

/-- Dictionary lookup `thresholds[measure_id]` (first binding wins). -/
def lookup_measure (tbl : Thresholds) (m : String) : Option (List Band) :=
  (tbl.find? (fun p => p.1 == m)).map (fun p => p.2)

/-- One step of Python `max(measure_ranges, key=lambda x: x[2])`: keeps the
current candidate unless a strictly larger star rating appears later. -/
def max_from (cur : Band) : List Band → Band
  | [] => cur
  | b :: rest => max_from (if cur.2.2 < b.2.2 then b else cur) rest

/-- Python `max(measure_ranges, key=lambda x: x[2])`; `none` for an empty list
(where Python raises ValueError). -/
def max_by_star : List Band → Option Band
  | [] => none
  | b :: rest => some (max_from b rest)

/-- The two error classes raised by `get_star_rating`. -/
inductive RatingError where
  | unknownMeasure
  | scoreOutOfRange
deriving DecidableEq, Repr

/-- The scan condition `lower_bound <= score < upper_bound`. -/
def in_band (score : ℚ) (b : Band) : Bool :=
  decide (b.1 ≤ score) && decide (score < b.2.1)

/-- `get_star_rating` from starThresholdParsing.py: scan the bands in stored
order for one containing the score; failing that, rescue a score at or above
the lower bound of the highest-star band; otherwise raise. `unknownMeasure`
models the KeyError and `scoreOutOfRange` the ValueError (including the
ValueError Python raises for `max` of an empty band list). -/
def get_star_rating (measure_id : String) (score : ℚ) (thresholds : Thresholds) :
    Except RatingError ℕ :=
  match lookup_measure thresholds measure_id with
  | none => .error .unknownMeasure
  | some measure_ranges =>
    match measure_ranges.find? (in_band score) with
    | some b => .ok b.2.2
    | none =>
      match max_by_star measure_ranges with
      | none => .error .scoreOutOfRange
      | some highest =>
        if highest.1 ≤ score then .ok highest.2.2 else .error .scoreOutOfRange

/-- Body of the per-score loop of `calculate_star_ratings`
(calculateStarRating.py lines 38-57) for a non-missing score. The outer
`Option` is `none` exactly when Python would hit an uncaught IndexError from
`[r for r in measure_ranges if ...][0]`; `some (star?, dist?)` is the normal
path, where `none` components are the NaN sentinels appended on a caught
KeyError or ValueError. -/
def score_star_distance (measure : String) (score : ℚ) (thresholds : Thresholds) :
    Option (Option ℕ × Option ℚ) :=
  match get_star_rating measure score thresholds with
  | .error _ => some (none, none)
  | .ok star =>
    match lookup_measure thresholds measure with
    | none => some (none, none)
    | some measure_ranges =>
      match measure_ranges.find? (fun r => r.2.2 == star) with
      | none => none
      | some _ =>
        if star < 5 then
          match measure_ranges.find? (fun r => r.2.2 == star + 1) with
          | none => none
          | some next_range => some (some star, some (next_range.1 - score))
        else
          some (some star, some 0)

/-- Per-cell classification in `calculate_star_ratings`, including the leading
`pd.isna(score)` test that short-circuits to the NaN sentinels. -/
def classify_cell (measure : String) (score : Option ℚ) (thresholds : Thresholds) :
    Option (Option ℕ × Option ℚ) :=
  match score with
  | none => some (none, none)
  | some s => score_star_distance measure s thresholds

/-- A data-frame row: column name mapped to a float-or-NaN value. -/
abbrev RatingsRow : Type := List (String × Option ℚ)

/-- Row/series lookup by column name; `none` when the column is absent. -/
def lookup_row (row : RatingsRow) (m : String) : Option (Option ℚ) :=
  (row.find? (fun p => p.1 == m)).map (fun p => p.2)

/-- Weight-dictionary lookup. -/
def lookup_weight (weights : List (String × ℚ)) (m : String) : Option ℚ :=
  (weights.find? (fun p => p.1 == m)).map (fun p => p.2)

/-- The accumulation loop of the weighted average in `calculate_star_ratings`
(lines 67-73): iterate over `measure_weights.items()`, and include a measure
only when the column exists and its star rating is not NaN. Returns
`(total_score, total_weight)`. -/
def rating_totals (weights : List (String × ℚ)) (row : RatingsRow) : ℚ × ℚ :=
  match weights with
  | [] => (0, 0)
  | (m, w) :: rest =>
    let acc := rating_totals rest row
    match lookup_row row m with
    | some (some star) => (acc.1 + star * w, acc.2 + w)
    | _ => acc

/-- The weighted average of one row (calculateStarRating.py lines 63-78):
`total_score / total_weight` when the total weight is positive, the NaN
sentinel otherwise. -/
def weighted_average (weights : List (String × ℚ)) (row : RatingsRow) : Option ℚ :=
  let t := rating_totals weights row
  if 0 < t.2 then some (t.1 / t.2) else none

/-- The five rating levels of the probability loop in
`run_monte_carlo_simulation` (monteCarloSimulation.py line 103). -/
def rating_levels : List ℚ := [1, 2, 3, 4, 5]

/-- The `rating_cutoffs` constant of `run_monte_carlo_simulation` (line 104). -/
def rating_cutoffs : List ℚ := [1.75, 2.75, 3.25, 3.75, 4.25, 4.75]

/-- `np.mean` of a list of rationals (sum divided by length). -/
def np_mean (l : List ℚ) : ℚ := l.sum / l.length

/-- Probability mass the binning loop (lines 107-116) assigns to loop index
`i` (level `i + 1`): below the first cutoff for `i = 0`, at or above
`rating_cutoffs[i-1]` for the last index, and the half-open window between
`rating_cutoffs[i-1]` and `rating_cutoffs[i]` in between. -/
def level_prob (draws : List ℚ) (i : ℕ) : ℚ :=
  if i = 0 then
    np_mean (draws.map (fun r => if r < rating_cutoffs.getD i 0 then 1 else 0))
  else if i = rating_levels.length - 1 then
    np_mean (draws.map (fun r => if rating_cutoffs.getD (i - 1) 0 ≤ r then 1 else 0))
  else
    np_mean (draws.map (fun r =>
      if rating_cutoffs.getD (i - 1) 0 ≤ r ∧ r < rating_cutoffs.getD i 0 then 1 else 0))

/-- The `rating_probs` dictionary built by `run_monte_carlo_simulation` from
the simulated aggregate ratings: level mapped to empirical probability. -/
def rating_probabilities (draws : List ℚ) : List (ℚ × ℚ) :=
  (List.range rating_levels.length).map
    (fun i => (rating_levels.getD i 0, level_prob draws i))

/-- Round-half-to-even on rationals, the rounding used by pandas `round`. -/
def round_half_even (q : ℚ) : ℤ :=
  if q - ⌊q⌋ < 1 / 2 then ⌊q⌋
  else if 1 / 2 < q - ⌊q⌋ then ⌊q⌋ + 1
  else if 2 ∣ ⌊q⌋ then ⌊q⌋ else ⌊q⌋ + 1

/-- `round(3)`: round to three decimal places. -/
def round3 (q : ℚ) : ℚ := (round_half_even (q * 1000) : ℚ) / 1000

/-- One entry of the `opportunities` list in `calculate_improvement_path`
(improvementPath.py lines 48-55). -/
structure Opportunity where
  measure : String
  current_stars : ℚ
  weight : ℚ
  distance_to_next : ℚ
  distance_per_weight : ℚ
  single_measure_impact : ℚ
deriving DecidableEq, Repr

/-- One row of the `output_df` returned by `calculate_improvement_path`
(columns selected on lines 69-76). -/
structure PathRow where
  measure : String
  weight : ℚ
  distance_to_next : ℚ
  distance_per_weight : ℚ
  cumulative_weight : ℚ
  cumulative_rating_impact : ℚ
deriving DecidableEq, Repr

/-- `total_weight` of `calculate_improvement_path` (line 28): sum of
`measure_weights[col]` over the columns of the first star-ratings row whose
star is not NaN. A column with a star but no weight raises an uncaught
KeyError, modelled as `none`. -/
def path_total_weight (stars : RatingsRow) (weights : List (String × ℚ)) : Option ℚ :=
  match stars with
  | [] => some 0
  | (m, st) :: rest =>
    match path_total_weight rest weights with
    | none => none
    | some t =>
      match st with
      | none => some t
      | some _ =>
        match lookup_weight weights m with
        | none => none
        | some w => some (t + w)

/-- The opportunity-building loop of `calculate_improvement_path`
(lines 33-55): iterate over the star columns, skip measures without a weight,
look the distance up (an absent column is an uncaught KeyError, `none`), skip
NaN stars, five-star measures and NaN distances, and otherwise record the
opportunity with `abs(distance) / weight` and `weight / total_weight`
(either division by zero is an uncaught ZeroDivisionError, `none`). -/
def mk_opportunities (dists : RatingsRow) (weights : List (String × ℚ)) (tw : ℚ) :
    RatingsRow → Option (List Opportunity)
  | [] => some []
  | (m, st) :: rest =>
    match lookup_weight weights m with
    | none => mk_opportunities dists weights tw rest
    | some w =>
      match lookup_row dists m with
      | none => none
      | some dOpt =>
        match st, dOpt with
        | some star, some dist =>
          if star = 5 then mk_opportunities dists weights tw rest
          else if w = 0 then none
          else if tw = 0 then none
          else
            (mk_opportunities dists weights tw rest).map
              (fun l => ⟨m, star, w, dist, |dist| / w, w / tw⟩ :: l)
        | _, _ => mk_opportunities dists weights tw rest

/-- The `cumsum` step (lines 65-66) over the efficiency-sorted, index-labelled
opportunities: running cumulative weight, and current weighted average plus
the running cumulative single-measure impact. -/
def add_cums (cw ci : ℚ) : List (ℕ × Opportunity) → List (ℕ × PathRow)
  | [] => []
  | (lbl, o) :: rest =>
    let cw2 := cw + o.weight
    let ci2 := ci + o.single_measure_impact
    (lbl, ⟨o.measure, o.weight, o.distance_to_next, o.distance_per_weight, cw2, ci2⟩) ::
      add_cums cw2 ci2 rest

/-- `round(3)` applied to every numeric column of an output row (line 76). -/
def round_row (r : PathRow) : PathRow :=
  ⟨r.measure, round3 r.weight, round3 r.distance_to_next, round3 r.distance_per_weight,
    round3 r.cumulative_weight, round3 r.cumulative_rating_impact⟩

/-- `calculate_improvement_path` from improvementPath.py. The result pairs the
returned `output_df` rows with the `measures_needed` selection of the
target block (lines 79-87): `idxmax` yields the original integer label of the
first row whose rounded cumulative rating impact reaches the target, and
`iloc[:label + 1]` then takes that many rows positionally; `none` when no row
reaches the target (or when there are no opportunities at all, line 59-60).
The outer `Option` is `none` for the uncaught exceptions (`iloc[0]` of an
empty frame, a KeyError in the weight or distance lookups, or a
ZeroDivisionError). -/
def calculate_improvement_path (star_ratings distances : List RatingsRow)
    (weights : List (String × ℚ)) (current_weighted_avg target_rating : ℚ) :
    Option (List PathRow × Option (List PathRow)) :=
  match star_ratings, distances with
  | stars_row :: _, dist_row :: _ =>
    match path_total_weight stars_row weights with
    | none => none
    | some tw =>
      match mk_opportunities dist_row weights tw stars_row with
      | none => none
      | some opps =>
        if opps.isEmpty then some ([], none)
        else
          let sorted := opps.enum.insertionSort
            (fun a b => a.2.distance_per_weight ≤ b.2.distance_per_weight)
          let out := (add_cums 0 current_weighted_avg sorted).map
            (fun p => (p.1, round_row p.2))
          let needed :=
            match out.find?
                (fun p => decide (target_rating ≤ p.2.cumulative_rating_impact)) with
            | some p => some ((out.take (p.1 + 1)).map (fun q => q.2))
            | none => none
          some (out.map (fun p => p.2), needed)
  | _, _ => none

/-- The ROI of a scenario: a finite ratio or Python `float('inf')`. -/
inductive RoiResult where
  | val (q : ℚ)
  | infinite
deriving DecidableEq, Repr

/-- Cost and ROI of one improvement scenario in
`analyze_improvement_strategies` (analyzeImprovmentStrategies.py lines 75-80):
`cost = sum(scenario["improvements"].values()) * cost_per_point` and
`roi = net_value / cost if cost > 0 else float("inf")`. -/
def scenario_cost_roi (improvements : List (String × ℚ)) (cost_per_point net_value : ℚ) :
    ℚ × RoiResult :=
  let cost := (improvements.map (fun p => p.2)).sum * cost_per_point
  (cost, if 0 < cost then .val (net_value / cost) else .infinite)

/-- Statement helper: whether the row holds a non-NaN rating for column `m`. -/
def is_rated (row : RatingsRow) (m : String) : Bool :=
  match lookup_row row m with
  | some (some _) => true
  | _ => false

/-- Statement helper: the non-NaN rating of column `m` (0 when absent; only
used under `is_rated`). -/
def star_value (row : RatingsRow) (m : String) : ℚ :=
  match lookup_row row m with
  | some (some v) => v
  | _ => 0

/-- The example band table of the specification (five contiguous bands). -/
def example_bands : List Band :=
  [(0, 55, 1), (55, 70, 2), (70, 85, 3), (85, 95, 4), (95, 101, 5)]

/-- A one-measure threshold table built from the example bands. -/
def example_thresholds : Thresholds := [("A", example_bands)]

instance : IsTotal (ℕ × Opportunity)
    (fun a b => a.2.distance_per_weight ≤ b.2.distance_per_weight) :=
  ⟨fun _ _ => le_total _ _⟩

instance : IsTrans (ℕ × Opportunity)
    (fun a b => a.2.distance_per_weight ≤ b.2.distance_per_weight) :=
  ⟨fun _ _ _ => le_trans⟩

/-- C2: for a measure key absent from the table `get_star_rating` fails with
the KeyError (`unknownMeasure`); for a present key it returns the star of the
first band, in stored ascending order, whose half-open interval contains the
score; when no band contains the score it returns the star of the
highest-level band whenever the score is at least that lower bound, and
otherwise fails with `scoreOutOfRange` (a ValueError). -/
theorem get_star_rating_spec (tbl : Thresholds) (m : String) (s : ℚ) :
    (lookup_measure tbl m = none →
      get_star_rating m s tbl = .error .unknownMeasure) ∧
    (∀ ranges, lookup_measure tbl m = some ranges →
      (∀ b, ranges.find? (in_band s) = some b →
        get_star_rating m s tbl = .ok b.2.2) ∧
      (ranges.find? (in_band s) = none →
        ∀ hb, max_by_star ranges = some hb →
          (hb.1 ≤ s → get_star_rating m s tbl = .ok hb.2.2) ∧
          (s < hb.1 → get_star_rating m s tbl = .error .scoreOutOfRange))) := by
  refine ⟨fun h => by simp [get_star_rating, h],
    fun ranges h => ⟨fun b hb => by simp [get_star_rating, h, hb],
      fun hnone hb hmax =>
        ⟨fun hle => by simp [get_star_rating, h, hnone, hmax, hle],
         fun hlt => by simp [get_star_rating, h, hnone, hmax, not_le.mpr hlt]⟩⟩⟩

/-- Witness for C2 at the example table: score 74 falls in the band
`(70, 85, 3)` and is rated 3. -/
theorem get_star_rating_spec_witness :
    get_star_rating "A" 74 example_thresholds = .ok 3 := by
  have h := ((get_star_rating_spec example_thresholds "A" 74).2 example_bands
    rfl).1 (70, 85, 3) (by decide)
  simpa using h

/-- C7: a missing (NaN) score classifies to the NaN sentinels for both rating
and distance without raising, and a NaN rating is excluded from both the
numerator and the denominator of the aggregate. -/
theorem classify_cell_nan_spec :
    (∀ (m : String) (tbl : Thresholds),
      classify_cell m none tbl = some (none, none)) ∧
    (∀ (m : String) (w : ℚ) (weights : List (String × ℚ)) (row : RatingsRow),
      lookup_row row m = some none →
      rating_totals ((m, w) :: weights) row = rating_totals weights row) :=
  ⟨fun _ _ => rfl, fun m w weights row h => by simp [rating_totals, h]⟩

/-- Witness for C7: a NaN cell of measure X classifies to the sentinels, and
a NaN rating for X leaves the aggregate totals unchanged. -/
theorem classify_cell_nan_spec_witness :
    classify_cell "X" none [] = some (none, none) ∧
    rating_totals [("X", (2 : ℚ))] [("X", none)] = rating_totals [] [("X", none)] :=
  ⟨classify_cell_nan_spec.1 "X" [], classify_cell_nan_spec.2 "X" 2 [] [("X", none)] rfl⟩

/-- The totals of the aggregation loop are the sums over exactly the weighted
measures whose rating in the row is not NaN. -/
theorem rating_totals_eq (weights : List (String × ℚ)) (row : RatingsRow) :
    rating_totals weights row =
      (((weights.filter (fun p => is_rated row p.1)).map
          (fun p => star_value row p.1 * p.2)).sum,
       ((weights.filter (fun p => is_rated row p.1)).map (fun p => p.2)).sum) := by
  induction weights with
  | nil => simp [rating_totals]
  | cons p rest ih =>
    obtain ⟨m, w⟩ := p
    rcases h : lookup_row row m with _ | v
    · simp [rating_totals, h, is_rated, List.filter_cons, ih]
    · rcases v with _ | star
      · simp [rating_totals, h, is_rated, List.filter_cons, ih]
      · simp only [rating_totals, h, is_rated, List.filter_cons, ih, if_pos,
          List.map_cons, List.sum_cons, star_value]
        rw [Prod.mk.injEq]
        exact ⟨by ring, by ring⟩

/-- C4: the aggregate is the weighted mean over exactly the measures that
carry a non-NaN rating and appear in the weight mapping; measures missing
either are excluded from numerator and denominator alike, and a total
included weight of 0 produces the NaN sentinel rather than 0 or an error. -/
theorem weighted_average_spec (weights : List (String × ℚ)) (row : RatingsRow) :
    weighted_average weights row =
      (if 0 < ((weights.filter (fun p => is_rated row p.1)).map (fun p => p.2)).sum
       then some ((((weights.filter (fun p => is_rated row p.1)).map
              (fun p => star_value row p.1 * p.2)).sum) /
            ((weights.filter (fun p => is_rated row p.1)).map (fun p => p.2)).sum)
       else none) := by
  simp [weighted_average, rating_totals_eq]

/-- C9: the ROI of a scenario is the net value change divided by the cost when
the cost is positive, and the infinity sentinel when the cost is 0. -/
theorem scenario_roi_spec (improvements : List (String × ℚ)) (cpp net : ℚ) :
    (0 < (improvements.map (fun p => p.2)).sum * cpp →
      scenario_cost_roi improvements cpp net =
        ((improvements.map (fun p => p.2)).sum * cpp,
         .val (net / ((improvements.map (fun p => p.2)).sum * cpp)))) ∧
    ((improvements.map (fun p => p.2)).sum * cpp = 0 →
      scenario_cost_roi improvements cpp net =
        ((improvements.map (fun p => p.2)).sum * cpp, .infinite)) := by
  constructor
  · intro h
    simp [scenario_cost_roi, if_pos h]
  · intro h
    simp [scenario_cost_roi, h]

/-- Witness for C9: a 1-point scenario at cost 2 per point has ROI 5/2 for a
net value of 5, and the same scenario at cost 0 per point has infinite ROI. -/
theorem scenario_roi_spec_witness :
    scenario_cost_roi [("A", 1)] 2 5 = (2, .val (5 / 2)) ∧
    scenario_cost_roi [("A", 1)] 0 5 = (0, .infinite) := by
  constructor
  · have h := (scenario_roi_spec [("A", (1 : ℚ))] 2 5).1
    norm_num at h ⊢
    exact h
  · have h := (scenario_roi_spec [("A", (1 : ℚ))] 0 5).2
    norm_num at h ⊢
    exact h

/-- C10: only the first row of the star-ratings and distances tables can
influence `calculate_improvement_path`; any two inputs agreeing on the first
rows (and on weights, current aggregate and target) give identical results. -/
theorem improvement_path_uses_first_row_only
    (r d : RatingsRow) (t1 t2 u1 u2 : List RatingsRow)
    (weights : List (String × ℚ)) (avg target : ℚ) :
    calculate_improvement_path (r :: t1) (d :: u1) weights avg target =
    calculate_improvement_path (r :: t2) (d :: u2) weights avg target := rfl

/-- The Python `max` scan returns its seed or some later element. -/
theorem max_from_mem (cur : Band) (l : List Band) :
    max_from cur l = cur ∨ max_from cur l ∈ l := by
  induction l generalizing cur with
  | nil => exact Or.inl rfl
  | cons b rest ih =>
    have hx : max_from cur (b :: rest) =
        max_from (if cur.2.2 < b.2.2 then b else cur) rest := rfl
    rcases ih (if cur.2.2 < b.2.2 then b else cur) with h | h
    · rw [hx, h]
      by_cases hc : cur.2.2 < b.2.2
      · exact Or.inr (by simp [hc])
      · exact Or.inl (by simp [hc])
    · exact Or.inr (List.mem_cons_of_mem b (hx ▸ h))

/-- The band selected by `max(measure_ranges, key=...)` belongs to the list. -/
theorem max_by_star_mem {l : List Band} {hb : Band} (h : max_by_star l = some hb) :
    hb ∈ l := by
  cases l with
  | nil => simp [max_by_star] at h
  | cons b rest =>
    have hb_eq : max_from b rest = hb := by simpa [max_by_star] using h
    rcases max_from_mem b rest with h2 | h2
    · rw [← hb_eq, h2]
      exact List.mem_cons_self b rest
    · exact List.mem_cons_of_mem b (hb_eq ▸ h2)

/-- C3: for a score falling in a band of level below 5, the distance stored by
`calculate_star_ratings` equals the absolute gap between the score and the
lower bound of the next-higher band, under the contiguity invariant of
threshold tables (the upper bound of a band never exceeds the lower bound of
the band one level up); for a score falling in a level-5 band, or rescued to
level 5, the distance is 0. -/
theorem star_distance_spec (tbl : Thresholds) (m : String) (s : ℚ)
    (ranges : List Band)
    (hlk : lookup_measure tbl m = some ranges)
    (hcont : ∀ x ∈ ranges, ∀ y ∈ ranges, y.2.2 = x.2.2 + 1 → x.2.1 ≤ y.1) :
    (∀ b, ranges.find? (in_band s) = some b →
      (b.2.2 < 5 → ∀ nb, ranges.find? (fun r => r.2.2 == b.2.2 + 1) = some nb →
        score_star_distance m s tbl = some (some b.2.2, some (|nb.1 - s|))) ∧
      (b.2.2 = 5 → score_star_distance m s tbl = some (some 5, some 0))) ∧
    (ranges.find? (in_band s) = none →
      ∀ hb, max_by_star ranges = some hb → hb.1 ≤ s → hb.2.2 = 5 →
        score_star_distance m s tbl = some (some 5, some 0)) := by
  constructor
  · intro b hfind
    have hget : get_star_rating m s tbl = .ok b.2.2 := by
      simp [get_star_rating, hlk, hfind]
    have hmemb : b ∈ ranges := List.mem_of_find?_eq_some hfind
    have hcur : (ranges.find? (fun r => r.2.2 == b.2.2)).isSome :=
      List.find?_isSome.mpr ⟨b, hmemb, by simp⟩
    obtain ⟨c, hc⟩ := Option.isSome_iff_exists.mp hcur
    have hband : b.1 ≤ s ∧ s < b.2.1 := by
      have := List.find?_some hfind
      simpa [in_band] using this
    constructor
    · intro hb5 nb hnext
      have hnb_mem : nb ∈ ranges := List.mem_of_find?_eq_some hnext
      have hnb_star : nb.2.2 = b.2.2 + 1 := by
        have := List.find?_some hnext
        simpa using this
      have hup : b.2.1 ≤ nb.1 := hcont b hmemb nb hnb_mem hnb_star
      have habs : |nb.1 - s| = nb.1 - s := abs_of_nonneg (by linarith [hband.2])
      simp [score_star_distance, hget, hlk, hc, hb5, hnext, habs]
    · intro hb5
      rw [hb5] at hget hc
      simp [score_star_distance, hget, hlk, hc]
  · intro hnone hb hmax hle h5
    have hget : get_star_rating m s tbl = .ok hb.2.2 := by
      simp [get_star_rating, hlk, hnone, hmax, hle]
    have hcur : (ranges.find? (fun r => r.2.2 == hb.2.2)).isSome :=
      List.find?_isSome.mpr ⟨hb, max_by_star_mem hmax, by simp⟩
    obtain ⟨c, hc⟩ := Option.isSome_iff_exists.mp hcur
    simp [score_star_distance, hget, hlk, hc, h5]
    simp [h5] at hc
    simp [hc]

/-- Witness for C3 at the example bands of the specification: score 74 is
level 3, and its distance to the next level is 85 − 74 = 11. -/
theorem star_distance_spec_witness :
    score_star_distance "A" 74 example_thresholds = some (some 3, some 11) := by
  have h := ((star_distance_spec example_thresholds "A" 74 example_bands rfl
      (by decide)).1 (70, 85, 3) (by decide)).1 (by decide) (85, 95, 4) (by decide)
  rw [h]
  norm_num

/-- The sum of a 0/1 indicator map is the length of the matching filter. -/
theorem sum_indicator_map (p : ℚ → Prop) [DecidablePred p] (l : List ℚ) :
    (l.map (fun r => if p r then (1 : ℚ) else 0)).sum =
      ((l.filter (fun r => decide (p r))).length : ℚ) := by
  induction l with
  | nil => simp
  | cons a t ih =>
    by_cases h : p a
    · simp [List.filter_cons, h, ih]
      ring
    · simp [List.filter_cons, h, ih]

/-- The binning loop at index 0: fraction of the draws strictly below 1.75. -/
theorem level_prob_zero (draws : List ℚ) :
    level_prob draws 0 =
      ((draws.filter (fun r => decide (r < 1.75))).length : ℚ) / draws.length := by
  rw [level_prob]
  simp [rating_cutoffs, np_mean, sum_indicator_map (fun r => r < (1.75 : ℚ)) draws]

/-- The binning loop at index 1: fraction of the draws in [1.75, 2.75). -/
theorem level_prob_one (draws : List ℚ) :
    level_prob draws 1 =
      ((draws.filter (fun r => decide ((1.75 : ℚ) ≤ r ∧ r < 2.75))).length : ℚ) /
        draws.length := by
  rw [level_prob]
  simp [rating_cutoffs, rating_levels, np_mean,
    sum_indicator_map (fun r => (1.75 : ℚ) ≤ r ∧ r < 2.75) draws]

/-- The binning loop at index 2: fraction of the draws in [2.75, 3.25). -/
theorem level_prob_two (draws : List ℚ) :
    level_prob draws 2 =
      ((draws.filter (fun r => decide ((2.75 : ℚ) ≤ r ∧ r < 3.25))).length : ℚ) /
        draws.length := by
  rw [level_prob]
  simp [rating_cutoffs, rating_levels, np_mean,
    sum_indicator_map (fun r => (2.75 : ℚ) ≤ r ∧ r < 3.25) draws]

/-- The binning loop at index 3: fraction of the draws in [3.25, 3.75). -/
theorem level_prob_three (draws : List ℚ) :
    level_prob draws 3 =
      ((draws.filter (fun r => decide ((3.25 : ℚ) ≤ r ∧ r < 3.75))).length : ℚ) /
        draws.length := by
  rw [level_prob]
  simp [rating_cutoffs, rating_levels, np_mean,
    sum_indicator_map (fun r => (3.25 : ℚ) ≤ r ∧ r < 3.75) draws]

/-- The binning loop at the last index uses `rating_cutoffs[3] = 3.75`, not
the last cutoff: fraction of the draws at or above 3.75. -/
theorem level_prob_four (draws : List ℚ) :
    level_prob draws 4 =
      ((draws.filter (fun r => decide ((3.75 : ℚ) ≤ r))).length : ℚ) /
        draws.length := by
  rw [level_prob]
  simp [rating_cutoffs, rating_levels, np_mean,
    sum_indicator_map (fun r => (3.75 : ℚ) ≤ r) draws]

/-- The probability dictionary, written out bin by bin. -/
theorem rating_probabilities_eq (draws : List ℚ) :
    rating_probabilities draws =
      [(1, ((draws.filter (fun r => decide (r < 1.75))).length : ℚ) / draws.length),
       (2, ((draws.filter (fun r => decide ((1.75 : ℚ) ≤ r ∧ r < 2.75))).length : ℚ) /
            draws.length),
       (3, ((draws.filter (fun r => decide ((2.75 : ℚ) ≤ r ∧ r < 3.25))).length : ℚ) /
            draws.length),
       (4, ((draws.filter (fun r => decide ((3.25 : ℚ) ≤ r ∧ r < 3.75))).length : ℚ) /
            draws.length),
       (5, ((draws.filter (fun r => decide ((3.75 : ℚ) ≤ r))).length : ℚ) /
            draws.length)] := by
  simp [rating_probabilities, rating_levels, List.range_succ, level_prob_zero,
    level_prob_one, level_prob_two, level_prob_three, level_prob_four]

/-- C1 (counterexample): for the single draw 4 the binning in
`run_monte_carlo_simulation` puts probability 1 on level 5, although the
fraction of draws at or above the last cutoff 4.75 is 0 — the claimed
level-5 rule (fraction at or above 4.75) does not describe the code. -/
theorem rating_level5_cutoff_counterexample :
    (rating_probabilities [4]).getD 4 (0, 0) = (5, 1) ∧
    ((([4] : List ℚ).filter (fun r => decide ((4.75 : ℚ) ≤ r))).length : ℚ) /
        (([4] : List ℚ).length : ℚ) = 0 := by
  constructor
  · rw [rating_probabilities_eq]
    norm_num
  · norm_num

/-- C1 (amended): for a non-empty draw set the binning uses only the first
four cutoffs: level 1 is the fraction of draws below 1.75, levels 2-4 are the
fractions in [1.75, 2.75), [2.75, 3.25) and [3.25, 3.75), and level 5 is the
fraction at or above 3.75 (the loop reads `rating_cutoffs[i-1]` with `i = 4`,
so the cutoffs 4.25 and 4.75 are never used). -/
theorem rating_probabilities_bins (draws : List ℚ) (_h : draws ≠ []) :
    rating_probabilities draws =
      [(1, ((draws.filter (fun r => decide (r < 1.75))).length : ℚ) / draws.length),
       (2, ((draws.filter (fun r => decide ((1.75 : ℚ) ≤ r ∧ r < 2.75))).length : ℚ) /
            draws.length),
       (3, ((draws.filter (fun r => decide ((2.75 : ℚ) ≤ r ∧ r < 3.25))).length : ℚ) /
            draws.length),
       (4, ((draws.filter (fun r => decide ((3.25 : ℚ) ≤ r ∧ r < 3.75))).length : ℚ) /
            draws.length),
       (5, ((draws.filter (fun r => decide ((3.75 : ℚ) ≤ r))).length : ℚ) /
            draws.length)] :=
  rating_probabilities_eq draws

/-- Witness for the amended C1 at the single draw 4. -/
theorem rating_probabilities_bins_witness :
    ([4] : List ℚ) ≠ [] ∧
    rating_probabilities [4] =
      [(1, ((([4] : List ℚ).filter (fun r => decide (r < 1.75))).length : ℚ) / ([4] : List ℚ).length),
       (2, ((([4] : List ℚ).filter (fun r => decide ((1.75 : ℚ) ≤ r ∧ r < 2.75))).length : ℚ) /
            ([4] : List ℚ).length),
       (3, ((([4] : List ℚ).filter (fun r => decide ((2.75 : ℚ) ≤ r ∧ r < 3.25))).length : ℚ) /
            ([4] : List ℚ).length),
       (4, ((([4] : List ℚ).filter (fun r => decide ((3.25 : ℚ) ≤ r ∧ r < 3.75))).length : ℚ) /
            ([4] : List ℚ).length),
       (5, ((([4] : List ℚ).filter (fun r => decide ((3.75 : ℚ) ≤ r))).length : ℚ) /
            ([4] : List ℚ).length)] :=
  ⟨by simp, rating_probabilities_bins [4] (by simp)⟩

/-- Each rating lands in exactly one of the five bins of the loop. -/
theorem bin_partition (r : ℚ) :
    (if r < (1.75 : ℚ) then (1 : ℚ) else 0) +
      (if (1.75 : ℚ) ≤ r ∧ r < 2.75 then (1 : ℚ) else 0) +
      (if (2.75 : ℚ) ≤ r ∧ r < 3.25 then (1 : ℚ) else 0) +
      (if (3.25 : ℚ) ≤ r ∧ r < 3.75 then (1 : ℚ) else 0) +
      (if (3.75 : ℚ) ≤ r then (1 : ℚ) else 0) = 1 := by
  rcases lt_or_le r 1.75 with h1 | h1
  · rw [if_pos h1, if_neg (fun hc => absurd hc.1 (not_le.mpr h1)),
      if_neg (fun hc => absurd hc.1 (not_le.mpr (by linarith))),
      if_neg (fun hc => absurd hc.1 (not_le.mpr (by linarith))),
      if_neg (not_le.mpr (by linarith))]
    norm_num
  · rcases lt_or_le r 2.75 with h2 | h2
    · rw [if_neg (not_lt.mpr h1), if_pos ⟨h1, h2⟩,
        if_neg (fun hc => absurd hc.1 (not_le.mpr (by linarith))),
        if_neg (fun hc => absurd hc.1 (not_le.mpr (by linarith))),
        if_neg (not_le.mpr (by linarith))]
      norm_num
    · rcases lt_or_le r 3.25 with h3 | h3
      · rw [if_neg (not_lt.mpr (by linarith)),
          if_neg (fun hc => absurd hc.2 (not_lt.mpr h2)), if_pos ⟨h2, h3⟩,
          if_neg (fun hc => absurd hc.1 (not_le.mpr (by linarith))),
          if_neg (not_le.mpr (by linarith))]
        norm_num
      · rcases lt_or_le r 3.75 with h4 | h4
        · rw [if_neg (not_lt.mpr (by linarith)),
            if_neg (fun hc => absurd hc.2 (not_lt.mpr (by linarith))),
            if_neg (fun hc => absurd hc.2 (not_lt.mpr h3)), if_pos ⟨h3, h4⟩,
            if_neg (not_le.mpr (by linarith))]
          norm_num
        · rw [if_neg (not_lt.mpr (by linarith)),
            if_neg (fun hc => absurd hc.2 (not_lt.mpr (by linarith))),
            if_neg (fun hc => absurd hc.2 (not_lt.mpr (by linarith))),
            if_neg (fun hc => absurd hc.2 (not_lt.mpr h4)), if_pos h4]
          norm_num

/-- Summing five pointwise-complementary indicator maps over a list counts
every element exactly once. -/
theorem sum_five_maps (f1 f2 f3 f4 f5 : ℚ → ℚ) (l : List ℚ)
    (hpt : ∀ r, f1 r + f2 r + f3 r + f4 r + f5 r = 1) :
    (l.map f1).sum + (l.map f2).sum + (l.map f3).sum + (l.map f4).sum +
      (l.map f5).sum = l.length := by
  induction l with
  | nil => simp
  | cons a t ih =>
    simp only [List.map_cons, List.sum_cons, List.length_cons]
    have := hpt a
    push_cast
    linarith [ih]

/-- C8: for every non-empty draw set, the probability dictionary has exactly
the five levels 1-5 as keys, and its five probabilities sum to 1 up to the
stated 1e-9 tolerance (in fact exactly). -/
theorem rating_probabilities_sum_one (draws : List ℚ) (h : draws ≠ []) :
    (rating_probabilities draws).map (fun p => p.1) = [1, 2, 3, 4, 5] ∧
    |((rating_probabilities draws).map (fun p => p.2)).sum - 1| ≤ 1 / 1000000000 := by
  have hn : ((draws.length : ℚ)) ≠ 0 :=
    Nat.cast_ne_zero.mpr (by simpa [List.length_eq_zero] using h)
  have e1 := sum_indicator_map (fun r => r < (1.75 : ℚ)) draws
  have e2 := sum_indicator_map (fun r => (1.75 : ℚ) ≤ r ∧ r < 2.75) draws
  have e3 := sum_indicator_map (fun r => (2.75 : ℚ) ≤ r ∧ r < 3.25) draws
  have e4 := sum_indicator_map (fun r => (3.25 : ℚ) ≤ r ∧ r < 3.75) draws
  have e5 := sum_indicator_map (fun r => (3.75 : ℚ) ≤ r) draws
  have hsum := sum_five_maps _ _ _ _ _ draws bin_partition
  rw [e1, e2, e3, e4, e5] at hsum
  rw [rating_probabilities_eq]
  refine ⟨by simp, ?_⟩
  have h1 : ((draws.filter (fun r => decide (r < 1.75))).length : ℚ) / draws.length +
      (((draws.filter (fun r => decide ((1.75 : ℚ) ≤ r ∧ r < 2.75))).length : ℚ) /
        draws.length +
      (((draws.filter (fun r => decide ((2.75 : ℚ) ≤ r ∧ r < 3.25))).length : ℚ) /
        draws.length +
      (((draws.filter (fun r => decide ((3.25 : ℚ) ≤ r ∧ r < 3.75))).length : ℚ) /
        draws.length +
      ((draws.filter (fun r => decide ((3.75 : ℚ) ≤ r))).length : ℚ) /
        draws.length))) = 1 := by
    rw [div_add_div_same, div_add_div_same, div_add_div_same, div_add_div_same,
      div_eq_one_iff_eq hn]
    linarith [hsum]
  simp only [List.map_cons, List.map_nil, List.sum_cons, List.sum_nil, add_zero]
  rw [h1]
  norm_num

/-- Witness for C8 at the single draw 3. -/
theorem rating_probabilities_sum_one_witness :
    (rating_probabilities [3]).map (fun p => p.1) = [1, 2, 3, 4, 5] ∧
    |((rating_probabilities [3]).map (fun p => p.2)).sum - 1| ≤ 1 / 1000000000 :=
  rating_probabilities_sum_one [3] (by simp)

/-- Every opportunity collected by the loop comes from a star column with a
non-NaN rating below 5, a non-NaN distance and a weight, and carries exactly
the ratio fields the loop computes. -/
theorem mk_opportunities_mem (dists : RatingsRow) (weights : List (String × ℚ))
    (tw : ℚ) :
    ∀ (stars : RatingsRow) (opps : List Opportunity),
      mk_opportunities dists weights tw stars = some opps →
      ∀ o ∈ opps, ∃ st d w, ((o.measure, some st) ∈ stars) ∧ st ≠ 5 ∧
        lookup_row dists o.measure = some (some d) ∧
        lookup_weight weights o.measure = some w ∧
        o = ⟨o.measure, st, w, d, |d| / w, w / tw⟩ := by
  intro stars
  induction stars with
  | nil =>
    intro opps h o ho
    simp only [mk_opportunities, Option.some.injEq] at h
    subst h
    simp at ho
  | cons p rest ih =>
    obtain ⟨m, st⟩ := p
    intro opps h o ho
    have hskip : mk_opportunities dists weights tw rest = some opps →
        ∃ st2 d w2, ((o.measure, some st2) ∈ (m, st) :: rest) ∧ st2 ≠ 5 ∧
          lookup_row dists o.measure = some (some d) ∧
          lookup_weight weights o.measure = some w2 ∧
          o = ⟨o.measure, st2, w2, d, |d| / w2, w2 / tw⟩ := by
      intro hrec
      obtain ⟨st2, d, w2, h1, h2, h3, h4, h5⟩ := ih opps hrec o ho
      exact ⟨st2, d, w2, List.mem_cons_of_mem _ h1, h2, h3, h4, h5⟩
    simp only [mk_opportunities] at h
    split at h
    · exact hskip h
    · rename_i w hw
      split at h
      · exact Option.noConfusion h
      · rename_i dOpt hd
        split at h
        · rename_i star dist
          split at h
          · exact hskip h
          · rename_i h5
            split at h
            · exact Option.noConfusion h
            · rename_i hw0
              split at h
              · exact Option.noConfusion h
              · rename_i htw0
                rcases hrec : mk_opportunities dists weights tw rest with _ | l
                · rw [hrec] at h
                  exact Option.noConfusion h
                · rw [hrec] at h
                  simp only [Option.map_some', Option.some.injEq] at h
                  subst h
                  rcases List.mem_cons.mp ho with rfl | hmem
                  · exact ⟨star, dist, w, List.mem_cons_self _ _, h5, hd, hw, rfl⟩
                  · obtain ⟨st2, d, w2, h1, h2, h3, h4, h5x⟩ := ih l hrec o hmem
                    exact ⟨st2, d, w2, List.mem_cons_of_mem _ h1, h2, h3, h4, h5x⟩
        all_goals exact hskip h

/-- The cumulative-sum pass does not change the efficiency column. -/
theorem add_cums_map_dpw (l : List (ℕ × Opportunity)) :
    ∀ (cw ci : ℚ),
      (add_cums cw ci l).map (fun p => p.2.distance_per_weight) =
        l.map (fun p => p.2.distance_per_weight) := by
  induction l with
  | nil => intro cw ci; rfl
  | cons p rest ih =>
    intro cw ci
    obtain ⟨lbl, o⟩ := p
    simp [add_cums, ih]

/-- Each row produced by the cumulative-sum pass keeps the measure, weight,
distance and efficiency of one of the sorted opportunities. -/
theorem add_cums_mem :
    ∀ {l : List (ℕ × Opportunity)} {cw ci : ℚ} {p : ℕ × PathRow},
      p ∈ add_cums cw ci l →
      ∃ q ∈ l, p.2.measure = q.2.measure ∧ p.2.weight = q.2.weight ∧
        p.2.distance_to_next = q.2.distance_to_next ∧
        p.2.distance_per_weight = q.2.distance_per_weight := by
  intro l
  induction l with
  | nil => intro cw ci p hp; simp [add_cums] at hp
  | cons x rest ih =>
    intro cw ci p hp
    obtain ⟨lbl, o⟩ := x
    simp only [add_cums, List.mem_cons] at hp
    rcases hp with rfl | hp
    · exact ⟨(lbl, o), List.mem_cons_self _ _, rfl, rfl, rfl, rfl⟩
    · obtain ⟨q, hq, h1, h2, h3, h4⟩ := ih hp
      exact ⟨q, List.mem_cons_of_mem _ hq, h1, h2, h3, h4⟩

/-- Round-half-to-even never rounds below the floor. -/
theorem round_half_even_ge (q : ℚ) : ⌊q⌋ ≤ round_half_even q := by
  unfold round_half_even
  split_ifs <;> omega

/-- Round-half-to-even never rounds above the ceiling. -/
theorem round_half_even_le (q : ℚ) : round_half_even q ≤ ⌊q⌋ + 1 := by
  unfold round_half_even
  split_ifs <;> omega

/-- Round-half-to-even is monotone. -/
theorem round_half_even_mono {a b : ℚ} (h : a ≤ b) :
    round_half_even a ≤ round_half_even b := by
  have hf : ⌊a⌋ ≤ ⌊b⌋ := Int.floor_mono h
  rcases lt_or_eq_of_le hf with hlt | heq
  · calc round_half_even a ≤ ⌊a⌋ + 1 := round_half_even_le a
      _ ≤ ⌊b⌋ := by omega
      _ ≤ round_half_even b := round_half_even_ge b
  · unfold round_half_even
    rw [← heq]
    split_ifs <;> first | omega | (exfalso; linarith)

/-- Rounding to three decimals is monotone. -/
theorem round3_mono {a b : ℚ} (h : a ≤ b) : round3 a ≤ round3 b := by
  have h1 : round_half_even (a * 1000) ≤ round_half_even (b * 1000) :=
    round_half_even_mono (by linarith)
  have h2 : ((round_half_even (a * 1000) : ℤ) : ℚ) ≤ ((round_half_even (b * 1000) : ℤ) : ℚ) := by
    exact_mod_cast h1
  unfold round3
  gcongr

/-- C5: every row of the improvement path returned by
`calculate_improvement_path` comes from a measure whose rating is present
(not NaN) and below 5, whose distance is present, and which has a weight —
measures failing any of these are excluded — and the rows are ordered
ascending by the efficiency ratio `abs(distance) / weight`. -/
theorem improvement_path_excludes_and_orders
    (stars_row dist_row : RatingsRow) (stail dtail : List RatingsRow)
    (weights : List (String × ℚ)) (avg target : ℚ)
    (out : List PathRow) (needed : Option (List PathRow))
    (h : calculate_improvement_path (stars_row :: stail) (dist_row :: dtail)
          weights avg target = some (out, needed)) :
    (∀ r ∈ out, ∃ st d w, ((r.measure, some st) ∈ stars_row) ∧ st ≠ 5 ∧
        lookup_row dist_row r.measure = some (some d) ∧
        lookup_weight weights r.measure = some w ∧
        r.distance_per_weight = round3 (|d| / w)) ∧
    out.Pairwise (fun a b => a.distance_per_weight ≤ b.distance_per_weight) := by
  simp only [calculate_improvement_path] at h
  split at h
  · exact Option.noConfusion h
  · rename_i tw htw
    split at h
    · exact Option.noConfusion h
    · rename_i opps hopps
      split at h
      · simp only [Option.some.injEq, Prod.mk.injEq] at h
        obtain ⟨h1, h2⟩ := h
        subst h1
        exact ⟨by simp, by simp⟩
      · simp only [Option.some.injEq, Prod.mk.injEq] at h
        obtain ⟨hout, hneed⟩ := h
        subst hout
        constructor
        · intro r hr
          simp only [List.map_map, List.mem_map, Function.comp] at hr
          obtain ⟨p, hp, hpr⟩ := hr
          obtain ⟨q, hq, hm, hwq, hdq, hdpwq⟩ := add_cums_mem hp
          have hq2 : q ∈ opps.enum :=
            (List.perm_insertionSort
              (fun a b : ℕ × Opportunity =>
                a.2.distance_per_weight ≤ b.2.distance_per_weight) opps.enum).mem_iff.mp hq
          have hq3 : q.2 ∈ opps := by
            have hmm := List.mem_map_of_mem Prod.snd hq2
            rwa [List.enum_map_snd] at hmm
          obtain ⟨st, d, w, hmem, h5, hd, hw, heqo⟩ :=
            mk_opportunities_mem dist_row weights tw stars_row opps hopps q.2 hq3
          have hdpw_val : q.2.distance_per_weight = |d| / w := by rw [heqo]
          have hrm : r.measure = q.2.measure := by
            rw [← hpr]
            simpa [round_row] using hm
          refine ⟨st, d, w, ?_, h5, ?_, ?_, ?_⟩
          · rw [hrm]
            exact hmem
          · rw [hrm]
            exact hd
          · rw [hrm]
            exact hw
          · rw [← hpr]
            show round3 p.2.distance_per_weight = round3 (|d| / w)
            rw [hdpwq, hdpw_val]
        · have hs : List.Pairwise (fun a b : ℕ × Opportunity =>
              a.2.distance_per_weight ≤ b.2.distance_per_weight)
              (opps.enum.insertionSort
                (fun a b => a.2.distance_per_weight ≤ b.2.distance_per_weight)) :=
            List.sorted_insertionSort _ _
          have hs2 : List.Pairwise (fun a b : ℚ => a ≤ b)
              ((opps.enum.insertionSort
                (fun a b => a.2.distance_per_weight ≤ b.2.distance_per_weight)).map
                  (fun p => p.2.distance_per_weight)) := List.pairwise_map.mpr hs
          rw [← add_cums_map_dpw _ 0 avg] at hs2
          have hs3 := List.pairwise_map.mp hs2
          simp only [List.map_map]
          refine List.pairwise_map.mpr ?_
          exact hs3.imp (fun hle => round3_mono hle)

/-- Witness for C5: a single eligible measure with rating 3, distance 1 and
weight 1 yields a one-row path that satisfies the exclusion and ordering
properties. -/
theorem improvement_path_excludes_and_orders_witness :
    (∀ r ∈ ([⟨"A", 1, 1, 1, 1, 4⟩] : List PathRow), ∃ st d w,
        ((r.measure, some st) ∈ ([("A", some 3)] : RatingsRow)) ∧ st ≠ 5 ∧
        lookup_row [("A", some 1)] r.measure = some (some d) ∧
        lookup_weight [("A", 1)] r.measure = some w ∧
        r.distance_per_weight = round3 (|d| / w)) ∧
    ([⟨"A", 1, 1, 1, 1, 4⟩] : List PathRow).Pairwise
      (fun a b => a.distance_per_weight ≤ b.distance_per_weight) :=
  improvement_path_excludes_and_orders [("A", some 3)] [("A", some 1)] [] []
    [("A", 1)] 3 4 [⟨"A", 1, 1, 1, 1, 4⟩] (some [⟨"A", 1, 1, 1, 1, 4⟩]) (by
      norm_num [calculate_improvement_path, path_total_weight, mk_opportunities,
        lookup_weight, lookup_row, List.find?, List.insertionSort,
        List.orderedInsert, List.enum, List.enumFrom, add_cums, round_row,
        round3, round_half_even])

/-- C6 (evaluation at a failing input): with measures A (distance 10) and B
(distance 1), equal weights, current aggregate 3 and target 3.9, the sorted
path is [B, A] with cumulative impacts 3.5 and 4. The first row reaching the
target is A, whose pre-sort integer label is 0, so the `iloc[:label + 1]`
selection returns only [B] — a set whose cumulative impact 3.5 does not reach
the target — even though the prefix [B, A] does reach it. The returned list
also carries no explicit unreachable signal distinct from this selection. -/
theorem improvement_path_target_selection_bug :
    calculate_improvement_path
        [[("A", some 3), ("B", some 3)]] [[("A", some 10), ("B", some 1)]]
        [("A", 1), ("B", 1)] 3 (39 / 10)
      = some ([⟨"B", 1, 1, 1, 1, 7 / 2⟩, ⟨"A", 1, 10, 10, 2, 4⟩],
              some [⟨"B", 1, 1, 1, 1, 7 / 2⟩]) ∧
    (7 / 2 : ℚ) < 39 / 10 ∧ (39 / 10 : ℚ) ≤ 4 := by
  have ew1 : lookup_weight [("A", (1 : ℚ)), ("B", 1)] "A" = some 1 := by decide
  have ew2 : lookup_weight [("A", (1 : ℚ)), ("B", 1)] "B" = some 1 := by decide
  have ed1 : lookup_row [("A", some (10 : ℚ)), ("B", some 1)] "A" = some (some 10) := by
    decide
  have ed2 : lookup_row [("A", some (10 : ℚ)), ("B", some 1)] "B" = some (some 1) := by
    decide
  have h1 : path_total_weight [("A", some (3 : ℚ)), ("B", some 3)]
      [("A", 1), ("B", 1)] = some 2 := by
    norm_num [path_total_weight, ew1, ew2]
  have h2 : mk_opportunities [("A", some (10 : ℚ)), ("B", some 1)]
      [("A", 1), ("B", 1)] 2 [("A", some (3 : ℚ)), ("B", some 3)] =
      some [⟨"A", 3, 1, 10, 10, 1 / 2⟩, ⟨"B", 3, 1, 1, 1, 1 / 2⟩] := by
    norm_num [mk_opportunities, ew1, ew2, ed1, ed2]
  have h3 : ([⟨"A", 3, 1, 10, 10, 1 / 2⟩, ⟨"B", 3, 1, 1, 1, 1 / 2⟩] :
      List Opportunity).enum =
      [(0, ⟨"A", 3, 1, 10, 10, 1 / 2⟩), (1, ⟨"B", 3, 1, 1, 1, 1 / 2⟩)] := rfl
  have h4 : ([(0, (⟨"A", 3, 1, 10, 10, 1 / 2⟩ : Opportunity)),
        (1, ⟨"B", 3, 1, 1, 1, 1 / 2⟩)] : List (ℕ × Opportunity)).insertionSort
        (fun a b => a.2.distance_per_weight ≤ b.2.distance_per_weight) =
      [(1, ⟨"B", 3, 1, 1, 1, 1 / 2⟩), (0, ⟨"A", 3, 1, 10, 10, 1 / 2⟩)] := by
    norm_num [List.insertionSort, List.orderedInsert]
  have h5 : add_cums 0 3 ([(1, ⟨"B", 3, 1, 1, 1, 1 / 2⟩),
        (0, ⟨"A", 3, 1, 10, 10, 1 / 2⟩)] : List (ℕ × Opportunity)) =
      [(1, ⟨"B", 1, 1, 1, 1, 7 / 2⟩), (0, ⟨"A", 1, 10, 10, 2, 4⟩)] := by
    norm_num [add_cums]
  have h6 : round_row ⟨"B", 1, 1, 1, 1, 7 / 2⟩ = ⟨"B", 1, 1, 1, 1, 7 / 2⟩ := by
    norm_num [round_row, round3, round_half_even]
  have h7 : round_row ⟨"A", 1, 10, 10, 2, 4⟩ = ⟨"A", 1, 10, 10, 2, 4⟩ := by
    norm_num [round_row, round3, round_half_even]
  have h8 : List.find?
      (fun p : ℕ × PathRow =>
        decide ((39 : ℚ) / 10 ≤ p.2.cumulative_rating_impact))
      [(1, ⟨"B", 1, 1, 1, 1, 7 / 2⟩), (0, ⟨"A", 1, 10, 10, 2, 4⟩)] =
      some (0, ⟨"A", 1, 10, 10, 2, 4⟩) := by
    rw [List.find?_cons_of_neg, List.find?_cons_of_pos] <;> norm_num
  refine ⟨?_, by norm_num, by norm_num⟩
  simp only [calculate_improvement_path, h1, h2, List.isEmpty_cons, h3, h4, h5,
    List.map_cons, List.map_nil, Function.comp, h6, h7, if_false,
    Bool.false_eq_true, h8, List.take_succ_cons, List.take_zero]
